import Mathlib

/-!
# Verification of the Swagger-MCP indexing, caching and search subsystem

Shallow embedding of the TypeScript sources:

* `src/search/LightweightAPIRetriever.ts` — tag / pattern / keyword search,
  method filtering, parameter dispatch;
* `src/cache/IndexedSwaggerLoader.ts` — metadata loading, lightweight index
  construction, conditional refresh (`needsRefresh`);
* `src/cache/MemoryOptimizedCache.ts` — the LRU-backed bounded cache
  (the `lru-cache` npm dependency is modelled by its documented semantics:
  a recency-ordered store whose `dispose` hook fires on every entry removal);
* `SessionConfigManager` and `src/utils/sessionHelpers.ts` — session
  registry and deterministic session-id derivation (SHA-256 implemented
  in full, checked against the FIPS 180-4 "abc" test vector).

JavaScript `Map`s are modelled as association lists in insertion order
(`Map.get` = first lookup, `Map.set` updates in place or appends), JS
numbers used as scores are modelled as rationals, and JS truthiness of
strings/numbers (`""` and `0` are falsy) is modelled explicitly where the
source relies on it.  Network calls are passed in as explicit fetch-result
arguments; disk persistence is a fire-and-forget side channel the sources
never read back on the verified paths, so it does not appear in the state.
-/

set_option maxRecDepth 40000

namespace SwaggerMCP

/-! ## JS string / truthiness helpers -/

/-- `needle` is a prefix of `hay` (on character lists). -/
def leadsWith : List Char → List Char → Bool
  | [], _ => true
  | _ :: _, [] => false
  | a :: as, b :: bs => a = b && leadsWith as bs

/-- `needle` occurs as a contiguous run inside `hay` (on character lists). -/
def containsSeq (needle : List Char) : List Char → Bool
  | [] => leadsWith needle []
  | c :: rest => leadsWith needle (c :: rest) || containsSeq needle rest

/-- JS `hay.includes(needle)` on strings. -/
def strContains (hay needle : String) : Bool :=
  containsSeq needle.data hay.data

/-- ASCII lowercase of one character (what JS `toLowerCase` does on the
ASCII data these sources handle; matches `Char.toLower` on ASCII). -/
def charLower (c : Char) : Char :=
  if 'A' ≤ c ∧ c ≤ 'Z' then Char.ofNat (c.toNat + 32) else c

/-- ASCII uppercase of one character. -/
def charUpper (c : Char) : Char :=
  if 'a' ≤ c ∧ c ≤ 'z' then Char.ofNat (c.toNat - 32) else c

/-- JS `s.toLowerCase()` on ASCII strings. -/
def strLower (s : String) : String := ⟨s.data.map charLower⟩

/-- JS `s.toUpperCase()` on ASCII strings. -/
def strUpper (s : String) : String := ⟨s.data.map charUpper⟩

/-- JS truthiness of an optional string (`undefined` and `""` are falsy). -/
def isTruthyStr : Option String → Bool
  | none => false
  | some s => s ≠ ""

/-- JS `a || b` on optional strings: `a` unless it is `undefined` or `""`. -/
def jsOrStr (a b : Option String) : Option String :=
  match a with
  | some s => if s = "" then b else some s
  | none => b

/-- JS `v || d` on numbers (`undefined` and `0` fall back to `d`). -/
def jsOrNat (v : Option Nat) (d : Nat) : Nat :=
  match v with
  | some n => if n = 0 then d else n
  | none => d

/-- Structural worker for `dedupFirst`; the fuel starts at the list length,
which each step strictly dominates. -/
def dedupFirstFuel : Nat → List String → List String
  | 0, _ => []
  | _, [] => []
  | fuel + 1, a :: l => a :: dedupFirstFuel fuel (l.filter (· != a))

/-- JS `new Set(list)` iterated in insertion order: keep first occurrences. -/
def dedupFirst (l : List String) : List String := dedupFirstFuel l.length l

/-- A JS `Map` as an association list in insertion order; `set` replaces in
place when the key exists and appends otherwise. -/
def mapSet {β : Type} (l : List (String × β)) (k : String) (v : β) :
    List (String × β) :=
  if (l.lookup k).isSome then
    l.map (fun kv => if kv.1 = k then (k, v) else kv)
  else
    l ++ [(k, v)]

/-! ## Search data model (`src/config/types.ts`) -/

/-- `EndpointSummary` from `types.ts`; `tags` is `operation.tags || []`
(an absent tag list and an empty one behave identically in every consumer). -/
structure EndpointSummary where
  method : String
  path : String
  summary : Option String := none
  description : Option String := none
  operationId : Option String := none
  tags : List String := []
deriving DecidableEq, Repr

/-- `SearchResult` from `types.ts`; `relevance` (a JS number used as a
score) is modelled as a rational. -/
structure SearchResult where
  path : String
  relevance : ℚ
  method : Option String := none
  description : Option String := none
  tag : Option String := none
deriving DecidableEq, Repr

/-- The `metadata` block of an `APIIndex`. -/
structure APIIndexMetadata where
  totalEndpoints : Nat
  tags : List String
  version : String
  title : String
  baseUrl : Option String := none
deriving DecidableEq, Repr

/-- `APIIndex` from `types.ts`: the three `Map`s as insertion-ordered
association lists. -/
structure APIIndex where
  metadata : APIIndexMetadata
  tagIndex : List (String × List String)
  pathIndex : List (String × EndpointSummary)
  searchableIndex : List (String × List SearchResult)
deriving DecidableEq, Repr

/-- `SearchParams` from `types.ts`. -/
structure SearchParams where
  keywords : Option (List String) := none
  tags : Option (List String) := none
  pattern : Option String := none
  methods : Option (List String) := none
  limit : Option Nat := none
deriving DecidableEq, Repr

/-- JS truthiness of `params.xs && params.xs.length > 0`. -/
def optNonempty (o : Option (List String)) : Bool :=
  match o with
  | some l => l ≠ []
  | none => false

/-! ## `LightweightAPIRetriever` (`src/search/LightweightAPIRetriever.ts`)

`searchByPattern` calls `createSmartPattern(pattern).test(path)`; the JS
`RegExp` engine is external, so the compiled matcher is threaded in as an
abstract `regexOf : String → String → Bool` (pattern ↦ path ↦ test result).
Every theorem below quantifies over `regexOf`, covering both a successful
compile and the escaped-literal fallback taken on a `RegExp` error. -/

/-- Deduplication key used by `deduplicateResults`:
`(result.method || 'ALL') + '-' + result.path`. -/
def dedupKey (r : SearchResult) : String :=
  (match r.method with
   | some m => if m = "" then "ALL" else m
   | none => "ALL") ++ "-" ++ r.path

/-- The `seen`-set filter inside `deduplicateResults`. -/
def dedupGo (seen : List String) : List SearchResult → List SearchResult
  | [] => []
  | r :: rest =>
    if dedupKey r ∈ seen then dedupGo seen rest
    else r :: dedupGo (dedupKey r :: seen) rest

/-- `deduplicateResults`: keep the first result for each `(method, path)` key. -/
def deduplicateResults (results : List SearchResult) : List SearchResult :=
  dedupGo [] results

/-- One tag's contribution in `searchByTag`: for each `path` under the tag,
every `pathIndex` entry whose summary has that path, at relevance `1.0`. -/
def tagEntry (tag path : String) (kv : String × EndpointSummary) :
    Option SearchResult :=
  if kv.2.path = path then
    some { path := path, relevance := 1, method := some kv.2.method,
           description := kv.2.description, tag := some tag }
  else none

/-- All hits for one lowercased requested tag. -/
def tagHits (index : APIIndex) (tag : String) : List SearchResult :=
  (((index.tagIndex.lookup tag).getD []).map fun path =>
    index.pathIndex.filterMap (tagEntry tag path)).flatten

/-- `searchByTag`: lowercase the requested tags, iterate the resulting set in
insertion order, collect the hits and deduplicate. -/
def searchByTag (index : APIIndex) (tags : List String) : List SearchResult :=
  deduplicateResults
    (((dedupFirst (tags.map strLower)).map (tagHits index)).flatten)

/-- Stable insertion of one result into a relevance-descending list: `a` is
placed before the first strictly-smaller element, i.e. after its ties, which
combined with `sortByRelevanceDesc`'s right fold keeps ties in input order —
the behaviour of JS's stable `Array.sort((a, b) => b.relevance - a.relevance)`. -/
def insertDesc (a : SearchResult) : List SearchResult → List SearchResult
  | [] => [a]
  | b :: l => if b.relevance ≤ a.relevance then a :: b :: l else b :: insertDesc a l

/-- Stable descending sort by relevance (JS `Array.sort` with the comparator
`(a, b) => b.relevance - a.relevance`; `Array.sort` is stable). -/
def sortByRelevanceDesc : List SearchResult → List SearchResult
  | [] => []
  | a :: l => insertDesc a (sortByRelevanceDesc l)

/-- The relevance tier `searchByPattern` assigns to one endpoint summary. -/
def patternRelevance (regexOf : String → String → Bool) (pattern : String)
    (s : EndpointSummary) : ℚ :=
  if s.path = pattern then 1
  else if strContains (strLower s.path) (strLower pattern) then 8/10
  else if regexOf pattern s.path then 6/10
  else if isTruthyStr s.description &&
      strContains (strLower (s.description.getD "")) (strLower pattern) then 4/10
  else if isTruthyStr s.summary &&
      strContains (strLower (s.summary.getD "")) (strLower pattern) then 4/10
  else 0

/-- One endpoint's contribution to a pattern search. -/
def patternEntry (regexOf : String → String → Bool) (pattern : String)
    (kv : String × EndpointSummary) : Option SearchResult :=
  let rel := patternRelevance regexOf pattern kv.2
  if rel > 0 then
    some { path := kv.2.path, relevance := rel, method := some kv.2.method,
           description := jsOrStr kv.2.description kv.2.summary }
  else none

/-- The matches `searchByPattern` collects before sorting (its discovery
order: `pathIndex` insertion order, zero-relevance entries dropped). -/
def patternMatches (regexOf : String → String → Bool) (index : APIIndex)
    (pattern : String) : List SearchResult :=
  index.pathIndex.filterMap (patternEntry regexOf pattern)

/-- `searchByPattern`: score each endpoint by tier, keep positive scores,
sort descending by relevance (stably). -/
def searchByPattern (regexOf : String → String → Bool) (index : APIIndex)
    (pattern : String) : List SearchResult :=
  sortByRelevanceDesc (patternMatches regexOf index pattern)

/-- The fixed synonym table of `expandKeywords`, keyed by lowercased keyword. -/
def synonymsOf (k : String) : List String :=
  if k = "get" then ["fetch", "retrieve", "read"]
  else if k = "post" then ["create", "add", "insert"]
  else if k = "put" then ["update", "modify", "edit"]
  else if k = "delete" then ["remove", "destroy"]
  else if k = "user" then ["account", "profile"]
  else if k = "list" then ["get", "fetch", "retrieve"]
  else if k = "info" then ["information", "details"]
  else if k = "auth" then ["authentication", "login"]
  else if k = "config" then ["configuration", "settings"]
  else []

/-- `expandKeywords`: the original keywords followed by each one's synonyms. -/
def expandKeywords (keywords : List String) : List String :=
  keywords ++ (keywords.map (fun kw => synonymsOf (strLower kw))).flatten

/-- `addOrUpdateMatch`: bump an existing `(method, path)` entry's relevance by
`relevance * 0.3`, or append a fresh entry at relevance `relevance`. -/
def addOrUpdateMatch (ms : List (String × SearchResult))
    (summary : EndpointSummary) (relevance : ℚ) : List (String × SearchResult) :=
  let key := summary.method ++ "-" ++ summary.path
  match ms.lookup key with
  | some _ =>
    ms.map fun kv =>
      if kv.1 = key then
        (key, { kv.2 with relevance := kv.2.relevance + relevance * (3/10) })
      else kv
  | none =>
    ms ++ [(key, { path := summary.path, relevance := relevance,
                        method := some summary.method,
                        description := jsOrStr summary.description summary.summary })]

/-- The per-summary field checks of `searchByKeywords` for one keyword. -/
def keywordFieldStep (lowerKeyword : String)
    (m : List (String × SearchResult)) (s : EndpointSummary) :
    List (String × SearchResult) :=
  let m := if strContains (strLower s.path) lowerKeyword
    then addOrUpdateMatch m s (1/2) else m
  let m := if isTruthyStr s.description &&
      strContains (strLower (s.description.getD "")) lowerKeyword
    then addOrUpdateMatch m s (1/5) else m
  let m := if isTruthyStr s.summary &&
      strContains (strLower (s.summary.getD "")) lowerKeyword
    then addOrUpdateMatch m s (3/10) else m
  let m := if isTruthyStr s.operationId &&
      strContains (strLower (s.operationId.getD "")) lowerKeyword
    then addOrUpdateMatch m s (2/5) else m
  let m := if s.tags.any (fun t => strContains (strLower t) lowerKeyword)
    then addOrUpdateMatch m s (3/5) else m
  m

/-- One expanded keyword's pass of `searchByKeywords`: scan the path index
field by field, then fold in the pre-built `searchableIndex` entries (each
resolved to the first path-index summary with a matching path). -/
def keywordStep (index : APIIndex) (lowerKeyword : String)
    (m0 : List (String × SearchResult)) : List (String × SearchResult) :=
  let m1 := index.pathIndex.foldl (fun m kv => keywordFieldStep lowerKeyword m kv.2) m0
  match index.searchableIndex.lookup lowerKeyword with
  | none => m1
  | some indexMatches =>
    indexMatches.foldl (fun m mt =>
      match index.pathIndex.find? (fun kv => kv.2.path == mt.path) with
      | some kv => addOrUpdateMatch m kv.2 mt.relevance
      | none => m) m1

/-- The accumulated keyword matches in `Map` insertion order (the discovery
order of `searchByKeywords`, before sorting and capping). -/
def keywordMatches (index : APIIndex) (keywords : List String) :
    List (String × SearchResult) :=
  (expandKeywords keywords).foldl (fun m kw => keywordStep index (strLower kw) m) []

/-- `searchByKeywords`: accumulate per-keyword scores, sort descending and
cap at 50 results. -/
def searchByKeywords (index : APIIndex) (keywords : List String) :
    List SearchResult :=
  (sortByRelevanceDesc ((keywordMatches index keywords).map (·.2))).take 50

/-- The retention predicate of `filterByMethod`:
`!result.method || methodSet.has(result.method.toUpperCase())`. -/
def methodKept (methodSet : List String) (r : SearchResult) : Bool :=
  !(isTruthyStr r.method) || methodSet.contains (strUpper (r.method.getD ""))

/-- `filterByMethod`: with a non-empty filter, keep results with a falsy
method or whose upper-cased method is in the upper-cased filter set. -/
def filterByMethod (results : List SearchResult) (methods : List String) :
    List SearchResult :=
  if methods.isEmpty then results
  else results.filter (methodKept (methods.map strUpper))

/-- `params.limit || 20` (JS `||`: `0` and `undefined` fall back to 20). -/
def limitOrDefault (l : Option Nat) : Nat := jsOrNat l 20

/-- The default listing taken when no search criterion is given: the first
`limit || 20` path-index entries at relevance `0.1`. -/
def defaultListing (index : APIIndex) (limit : Option Nat) : List SearchResult :=
  (index.pathIndex.take (limitOrDefault limit)).map fun kv =>
    { path := kv.2.path, relevance := 1/10, method := some kv.2.method,
      description := jsOrStr kv.2.description kv.2.summary }

/-- `applySearchParams`: pick one strategy by priority
(tags > pattern > keywords > default listing), then the optional method
filter, then the limit. -/
def applySearchParams (regexOf : String → String → Bool) (index : APIIndex)
    (params : SearchParams) : List SearchResult :=
  let results :=
    if optNonempty params.tags then searchByTag index (params.tags.getD [])
    else if isTruthyStr params.pattern then
      searchByPattern regexOf index (params.pattern.getD "")
    else if optNonempty params.keywords then
      searchByKeywords index (params.keywords.getD [])
    else defaultListing index params.limit
  let results :=
    if optNonempty params.methods then filterByMethod results (params.methods.getD [])
    else results
  results.take (limitOrDefault params.limit)

/-- The discovery-ordered match list of the strategy `applySearchParams`
selects, before any sorting, filtering or truncation. -/
def discoveredResults (regexOf : String → String → Bool) (index : APIIndex)
    (params : SearchParams) : List SearchResult :=
  if optNonempty params.tags then searchByTag index (params.tags.getD [])
  else if isTruthyStr params.pattern then
    patternMatches regexOf index (params.pattern.getD "")
  else if optNonempty params.keywords then
    (keywordMatches index (params.keywords.getD [])).map (·.2)
  else defaultListing index params.limit

/-! ## SHA-256 (Node `crypto.createHash('sha256')`)

`sessionHelpers.ts` and `IndexedSwaggerLoader.ts` derive identifiers from
`crypto.createHash('sha256').update(s).digest('hex')`.  The algorithm is
implemented here over `Nat` with explicit `% 2^32` reductions and checked
against the FIPS 180-4 test vector for `"abc"`. -/

/-- Reduce to a 32-bit word. -/
def w32 (n : Nat) : Nat := n % 4294967296

/-- 32-bit right rotation. -/
def rotr (k n : Nat) : Nat := w32 ((n >>> k) ||| (n <<< (32 - k)))

/-- SHA-256 round constants. -/
def sha256K : List Nat :=
  [1116352408, 1899447441, 3049323471, 3921009573, 961987163,
   1508970993, 2453635748, 2870763221, 3624381080, 310598401,
   607225278, 1426881987, 1925078388, 2162078206, 2614888103,
   3248222580, 3835390401, 4022224774, 264347078, 604807628,
   770255983, 1249150122, 1555081692, 1996064986, 2554220882,
   2821834349, 2952996808, 3210313671, 3336571891, 3584528711,
   113926993, 338241895, 666307205, 773529912, 1294757372,
   1396182291, 1695183700, 1986661051, 2177026350, 2456956037,
   2730485921, 2820302411, 3259730800, 3345764771, 3516065817,
   3600352804, 4094571909, 275423344, 430227734, 506948616,
   659060556, 883997877, 958139571, 1322822218, 1537002063,
   1747873779, 1955562222, 2024104815, 2227730452, 2361852424,
   2428436474, 2756734187, 3204031479, 3329325298]

/-- SHA-256 initial hash state. -/
def sha256H0 : List Nat :=
  [1779033703, 3144134277, 1013904242, 2773480762,
   1359893119, 2600822924, 528734635, 1541459225]

/-- Big-endian bytes → 32-bit words. -/
def bytesToWordsBE : List Nat → List Nat
  | b0 :: b1 :: b2 :: b3 :: rest =>
    (((b0 * 256 + b1) * 256 + b2) * 256 + b3) :: bytesToWordsBE rest
  | _ => []

/-- σ₀ of the message schedule. -/
def ssig0 (x : Nat) : Nat := (rotr 7 x) ^^^ (rotr 18 x) ^^^ (x >>> 3)

/-- σ₁ of the message schedule. -/
def ssig1 (x : Nat) : Nat := (rotr 17 x) ^^^ (rotr 19 x) ^^^ (x >>> 10)

/-- Σ₀ of the compression function. -/
def bsig0 (x : Nat) : Nat := (rotr 2 x) ^^^ (rotr 13 x) ^^^ (rotr 22 x)

/-- Σ₁ of the compression function. -/
def bsig1 (x : Nat) : Nat := (rotr 6 x) ^^^ (rotr 11 x) ^^^ (rotr 25 x)

/-- Extend 16 message words to the 64-word schedule. -/
def buildW (chunk : List Nat) : Array Nat :=
  (List.range 48).foldl
    (fun w j =>
      let i := j + 16
      w.push (w32 (ssig1 w[i - 2]! + w[i - 7]! + ssig0 w[i - 15]! + w[i - 16]!)))
    chunk.toArray

/-- One SHA-256 compression round on the state `[a, b, c, d, e, f, g, h]`. -/
def compressStep (k w : Nat) (s : List Nat) : List Nat :=
  match s with
  | [a, b, c, d, e, f, g, h] =>
    let ch := (e &&& f) ^^^ ((e ^^^ 4294967295) &&& g)
    let maj := (a &&& b) ^^^ (a &&& c) ^^^ (b &&& c)
    let t1 := w32 (h + bsig1 e + ch + k + w)
    let t2 := w32 (bsig0 a + maj)
    [w32 (t1 + t2), a, b, c, w32 (d + t1), e, f, g]
  | other => other

/-- Process one 64-byte chunk (given as 16 words). -/
def compressChunk (state chunk : List Nat) : List Nat :=
  let w := buildW chunk
  let final := (List.range 64).foldl
    (fun s i => compressStep sha256K[i]! w[i]! s) state
  (state.zip final).map fun p => w32 (p.1 + p.2)

/-- SHA-256 padding: `0x80`, zeros to 56 mod 64, then the 64-bit bit length
big-endian. -/
def sha256Pad (msg : List Nat) : List Nat :=
  let len := msg.length
  let bitLen := 8 * len
  let zeros := (119 - len % 64) % 64
  msg ++ 0x80 :: List.replicate zeros 0 ++
    [(bitLen >>> 56) % 256, (bitLen >>> 48) % 256, (bitLen >>> 40) % 256,
     (bitLen >>> 32) % 256, (bitLen >>> 24) % 256, (bitLen >>> 16) % 256,
     (bitLen >>> 8) % 256, bitLen % 256]

/-- Structural worker for `chunks64`; each step consumes at least one byte. -/
def chunks64Fuel : Nat → List Nat → List (List Nat)
  | 0, _ => []
  | _, [] => []
  | fuel + 1, a :: t => (a :: t).take 64 :: chunks64Fuel fuel ((a :: t).drop 64)

/-- Split a byte list into 64-byte chunks. -/
def chunks64 (l : List Nat) : List (List Nat) := chunks64Fuel l.length l

/-- The eight 32-bit words of the SHA-256 digest of a byte message. -/
def sha256Words (msg : List Nat) : List Nat :=
  (chunks64 (sha256Pad msg)).foldl
    (fun st ch => compressChunk st (bytesToWordsBE ch)) sha256H0

/-- One lowercase hex digit. -/
def hexDigit (n : Nat) : Char :=
  if n < 10 then Char.ofNat (48 + n) else Char.ofNat (87 + n)

/-- A 32-bit word as eight lowercase hex digits. -/
def toHex8 (n : Nat) : List Char :=
  (List.range 8).map fun i => hexDigit ((n >>> (28 - 4 * i)) % 16)

/-- UTF-8 encoding of one character (what Node's `hash.update(string)` uses). -/
def utf8Bytes (c : Char) : List Nat :=
  let n := c.toNat
  if n < 0x80 then [n]
  else if n < 0x800 then
    [0xC0 ||| (n >>> 6), 0x80 ||| (n &&& 0x3F)]
  else if n < 0x10000 then
    [0xE0 ||| (n >>> 12), 0x80 ||| ((n >>> 6) &&& 0x3F), 0x80 ||| (n &&& 0x3F)]
  else
    [0xF0 ||| (n >>> 18), 0x80 ||| ((n >>> 12) &&& 0x3F),
     0x80 ||| ((n >>> 6) &&& 0x3F), 0x80 ||| (n &&& 0x3F)]

/-- The UTF-8 bytes of a string. -/
def strUtf8 (s : String) : List Nat := (s.data.map utf8Bytes).flatten

/-- `crypto.createHash('sha256').update(s).digest('hex')`. -/
def sha256Hex (s : String) : String :=
  ⟨((sha256Words (strUtf8 s)).map toHex8).flatten⟩

/-! ## Document model and indexer (`src/cache/IndexedSwaggerLoader.ts`)

Network I/O is external: each operation that fetches takes the fetch
outcome as an explicit argument (`Except` for a transport error versus a
response).  `JSON.stringify` (used only to hash the body) is threaded in as
an abstract `stringify` function.  Disk persistence (`persistIndex`,
endpoint memo files) is a best-effort side channel never read back on the
verified paths and is not part of the state. -/

/-- One operation object of a fetched document (the fields indexing reads). -/
structure Operation where
  summary : Option String := none
  description : Option String := none
  operationId : Option String := none
  tags : Option (List String) := none
deriving DecidableEq, Repr

/-- One path item: the seven HTTP methods `buildLightweightIndex` probes. -/
structure PathItem where
  get : Option Operation := none
  post : Option Operation := none
  put : Option Operation := none
  delete : Option Operation := none
  patch : Option Operation := none
  options : Option Operation := none
  head : Option Operation := none
deriving DecidableEq, Repr

/-- The method probe order of `buildLightweightIndex`. -/
def pathItemOps (pi : PathItem) : List (String × Option Operation) :=
  [("get", pi.get), ("post", pi.post), ("put", pi.put), ("delete", pi.delete),
   ("patch", pi.patch), ("options", pi.options), ("head", pi.head)]

/-- The `info` block of a document. -/
structure ApiInfo where
  title : String
  version : String
  description : Option String := none
deriving DecidableEq, Repr

/-- One `servers` entry. -/
structure ServerEntry where
  url : String
  description : Option String := none
deriving DecidableEq, Repr

/-- `SwaggerMetadata` (`IndexedSwaggerLoader.ts`): the subset of the document
kept after a metadata fetch.  The schema containers are kept as their raw
text; nothing on the verified paths inspects them. -/
structure SwaggerMetadata where
  info : ApiInfo
  servers : Option (List ServerEntry)
  paths : List (String × PathItem)
  components : Option String := none
  definitions : Option String := none
deriving DecidableEq, Repr

/-- A parsed fetched document body (`response.data`). -/
structure SwaggerDoc where
  openapi : Option String := none
  swagger : Option String := none
  info : ApiInfo
  servers : Option (List ServerEntry) := none
  paths : Option (List (String × PathItem)) := none
  components : Option String := none
  definitions : Option String := none
deriving DecidableEq, Repr

/-- A fetch response: parsed body plus validator headers. -/
structure FetchResponse where
  data : SwaggerDoc
  etag : Option String := none
  lastModified : Option String := none
deriving DecidableEq, Repr

/-- `DocumentMetadata` (`IndexedSwaggerLoader.ts`). -/
structure DocumentMetadata where
  etag : Option String
  lastModified : Option String
  contentHash : String
  downloadedAt : Nat
  expiresAt : Nat
deriving DecidableEq, Repr

/-- Errors `createIncrementalIndex` can propagate. -/
inductive LoadError where
  | invalidDocument
  | fetchFailed (msg : String)
deriving DecidableEq, Repr

/-- `loadMetadata`: reject a transport error, reject a body with neither a
truthy `openapi` nor a truthy `swagger` marker, otherwise project the
metadata and capture validators, content hash and a 30-minute expiry. -/
def loadMetadata (stringify : SwaggerDoc → String)
    (fetch : Except String FetchResponse) (now : Nat) :
    Except LoadError (SwaggerMetadata × DocumentMetadata) :=
  match fetch with
  | .error msg => .error (.fetchFailed msg)
  | .ok resp =>
    if !(isTruthyStr resp.data.openapi) && !(isTruthyStr resp.data.swagger) then
      .error .invalidDocument
    else
      .ok ({ info := resp.data.info
             servers := resp.data.servers
             paths := resp.data.paths.getD []
             components := resp.data.components
             definitions := resp.data.definitions },
           { etag := resp.etag
             lastModified := resp.lastModified
             contentHash := sha256Hex (stringify resp.data)
             downloadedAt := now
             expiresAt := now + 1800000 })

/-- A character counted by `extractKeywords`' splitter (`[a-zA-Z0-9]`). -/
def isAlnumAscii (c : Char) : Bool := c.isAlpha || c.isDigit

/-- Split into maximal alphanumeric runs (JS `split(/[^a-zA-Z0-9]+/)`,
with the empty fragments the later length filter would drop anyway). -/
def splitRunsAux (cur : List Char) : List Char → List (List Char)
  | [] => if cur.isEmpty then [] else [cur.reverse]
  | c :: rest =>
    if isAlnumAscii c then splitRunsAux (c :: cur) rest
    else if cur.isEmpty then splitRunsAux [] rest
    else cur.reverse :: splitRunsAux [] rest

/-- The fixed stop-word list of `isStopWord`. -/
def stopWords : List String :=
  ["the", "a", "an", "and", "or", "but", "in", "on", "at", "to", "for",
   "of", "with", "by", "is", "are", "was", "were", "be", "been", "have",
   "has", "had", "do", "does", "did", "will", "would", "could", "should",
   "may", "might", "can", "must", "this", "that", "these", "those"]

/-- `isStopWord`. -/
def isStopWord (w : String) : Bool := stopWords.contains (strLower w)

/-- `extractKeywords`: alphanumeric runs of length > 1 that are not stop
words. -/
def extractKeywords (text : String) : List String :=
  ((splitRunsAux [] text.data).map (fun cs => String.mk cs)).filter
    (fun w => w.length > 1 && !(isStopWord w))

/-- `calculateRelevance`: additive weighted field matches for one keyword
against one endpoint summary. -/
def calculateRelevance (keyword path : String) (summary : EndpointSummary) : ℚ :=
  (if strLower path = keyword then 1
   else if strContains (strLower path) keyword then 8/10 else 0) +
  (if strContains (strLower (summary.summary.getD "")) keyword ∧
      summary.summary.isSome then 4/10 else 0) +
  (if strContains (strLower (summary.description.getD "")) keyword ∧
      summary.description.isSome then 3/10 else 0) +
  (if summary.tags.any (fun t => strContains (strLower t) keyword) then 1/2 else 0) +
  (if strContains (strLower (summary.operationId.getD "")) keyword ∧
      summary.operationId.isSome then 6/10 else 0)

/-- The `searchText` of `addToSearchableIndex`:
`[path, summary, description, operationId, ...tags]` joined and lowercased. -/
def searchTextOf (path : String) (summary : EndpointSummary) : String :=
  strLower (String.intercalate " "
    (path :: (summary.summary.getD "") :: (summary.description.getD "") ::
      (summary.operationId.getD "") :: summary.tags))

/-- `addToSearchableIndex`: append one scored entry under every extracted
keyword of length ≥ 2. -/
def addToSearchableIndex (si : List (String × List SearchResult))
    (path : String) (summary : EndpointSummary) :
    List (String × List SearchResult) :=
  (extractKeywords (searchTextOf path summary)).foldl
    (fun si kw =>
      if kw.length < 2 then si
      else
        let entry : SearchResult :=
          { path := path, relevance := calculateRelevance kw path summary,
            method := some summary.method, description := summary.description }
        match si.lookup kw with
        | some l => mapSet si kw (l ++ [entry])
        | none => si ++ [(kw, [entry])]) si

/-- The fold state of `buildLightweightIndex`. -/
structure BuildAcc where
  count : Nat := 0
  tagIndex : List (String × List String) := []
  pathIndex : List (String × EndpointSummary) := []
  searchableIndex : List (String × List SearchResult) := []
  allTags : List String := []
deriving DecidableEq, Repr

/-- Append `path` to a tag's path list, creating the tag on first sight. -/
def tagIndexAdd (ti : List (String × List String)) (tag path : String) :
    List (String × List String) :=
  match ti.lookup tag with
  | some ps => mapSet ti tag (ps ++ [path])
  | none => ti ++ [(tag, [path])]

/-- `Set.add` for the `allTags` set (insertion order, first occurrence). -/
def addTag (tags : List String) (t : String) : List String :=
  if tags.contains t then tags else tags ++ [t]

/-- Process one `(path, method, operation)` triple of `buildLightweightIndex`. -/
def processOperation (acc : BuildAcc) (path methodName : String)
    (op : Operation) : BuildAcc :=
  let summary : EndpointSummary :=
    { method := strUpper methodName, path := path, summary := op.summary,
      description := op.description, operationId := op.operationId,
      tags := op.tags.getD [] }
  let acc :=
    { acc with
      count := acc.count + 1
      pathIndex := mapSet acc.pathIndex (strUpper methodName ++ "-" ++ path) summary }
  let acc := (op.tags.getD []).foldl
    (fun acc tag =>
      { acc with
        allTags := addTag acc.allTags tag
        tagIndex := tagIndexAdd acc.tagIndex tag path }) acc
  { acc with searchableIndex := addToSearchableIndex acc.searchableIndex path summary }

/-- `buildLightweightIndex`: walk every path and method, building the path,
tag and keyword indexes and the metadata block. -/
def buildLightweightIndex (metadata : SwaggerMetadata) : APIIndex :=
  let acc := metadata.paths.foldl
    (fun acc pkv =>
      (pathItemOps pkv.2).foldl
        (fun acc mop =>
          match mop.2 with
          | none => acc
          | some op => processOperation acc pkv.1 mop.1 op) acc)
    {}
  { metadata :=
      { totalEndpoints := acc.count
        tags := acc.allTags
        version := metadata.info.version
        title := metadata.info.title
        baseUrl := ((metadata.servers.getD []).head?).map (·.url) }
    tagIndex := acc.tagIndex
    pathIndex := acc.pathIndex
    searchableIndex := acc.searchableIndex }

/-- An index plus the optional build timestamp (`TimestampedAPIIndex`). -/
structure TimestampedAPIIndex where
  index : APIIndex
  timestamp : Option Nat := none
deriving DecidableEq, Repr

/-- The three in-memory caches of `IndexedSwaggerLoader`. -/
structure LoaderState where
  indexCache : List (String × TimestampedAPIIndex) := []
  metadataCache : List (String × SwaggerMetadata) := []
  documentMetadataCache : List (String × DocumentMetadata) := []
deriving DecidableEq, Repr

/-- `hashUrl`: first 16 hex characters of the URL's SHA-256. -/
def hashUrl (url : String) : String := (sha256Hex url).take 16

/-- `generateIndexKey`. -/
def generateIndexKey (url sessionId : String) : String :=
  hashUrl url ++ "_" ++ sessionId

/-- `isIndexExpired`: missing (or falsy `0`) timestamp counts as expired;
otherwise a fixed 30-minute TTL. -/
def isIndexExpired (idx : TimestampedAPIIndex) (now : Nat) : Bool :=
  match idx.timestamp with
  | none => true
  | some t => if t = 0 then true else now - t > 1800000

/-- `createIncrementalIndex`: serve a live cached index; otherwise fetch
metadata (which can fail), store both metadata caches, build and cache the
index.  Returns the result together with the (possibly updated) state. -/
def createIncrementalIndex (stringify : SwaggerDoc → String) (st : LoaderState)
    (url sessionId : String) (now : Nat)
    (fetch : Except String FetchResponse) :
    Except LoadError APIIndex × LoaderState :=
  let indexKey := generateIndexKey url sessionId
  let cachedLive :=
    match st.indexCache.lookup indexKey with
    | some cached => if isIndexExpired cached now then none else some cached
    | none => none
  match cachedLive with
  | some cached => (.ok cached.index, st)
  | none =>
    match loadMetadata stringify fetch now with
    | .error e => (.error e, st)
    | .ok (metadata, docMeta) =>
      let st :=
        { st with
          metadataCache := mapSet st.metadataCache indexKey metadata
          documentMetadataCache := mapSet st.documentMetadataCache indexKey docMeta }
      let index := buildLightweightIndex metadata
      let st :=
        { st with
          indexCache := mapSet st.indexCache indexKey
            { index := index, timestamp := some now } }
      (.ok index, st)

/-- `needsRefresh`: `true` with no cached index or document metadata, `true`
past the stored expiry, otherwise ask the source with the stored validators
(`headResult` is the outcome of the conditional `HEAD` request): a `304`
extends the expiry by 30 minutes and answers `false`; any other status, or
any transport error, answers `true`. -/
def needsRefresh (st : LoaderState) (url sessionId : String) (now : Nat)
    (headResult : Except String Nat) : Bool × LoaderState :=
  let indexKey := generateIndexKey url sessionId
  match st.indexCache.lookup indexKey, st.documentMetadataCache.lookup indexKey with
  | some _, some docMeta =>
    if now > docMeta.expiresAt then (true, st)
    else
      match headResult with
      | .ok status =>
        if status = 304 then
          (false,
           { st with
             documentMetadataCache := mapSet st.documentMetadataCache indexKey
               { docMeta with expiresAt := now + 1800000 } })
        else (true, st)
      | .error _ => (true, st)
  | _, _ => (true, st)

/-! ## Bounded cache (`src/cache/MemoryOptimizedCache.ts`)

The class wraps the `lru-cache` npm package, modelled here by its documented
semantics: entries kept in recency order (most recent first), `get`
promoting to the front, `set` evicting the least-recently-used entry when a
fresh insert exceeds `max`, and the `dispose` hook firing on *every* entry
removal — capacity eviction, overwrite of an existing key, explicit delete
and clear.  The wrapper's `dispose` callback increments `stats.evictions`.
The wrapper enforces expiry itself from its own `CacheEntry` timestamps, so
the package's internal TTL bookkeeping is not re-modelled; process-memory
probing (`isNearMemoryLimit`) is an environment reading passed in as a
boolean. -/

/-- `CacheEntry<T>` from `types.ts`. -/
structure CacheEntry (α : Type) where
  data : α
  timestamp : Nat
  ttl : Nat
  accessCount : Nat
  lastAccessed : Nat
deriving DecidableEq, Repr

/-- Hit/miss/mutation counters of `MemoryOptimizedCache`. -/
structure CacheStats where
  hits : Nat := 0
  misses : Nat := 0
  sets : Nat := 0
  deletes : Nat := 0
  evictions : Nat := 0
deriving DecidableEq, Repr

/-- A `MemoryOptimizedCache<T>`: the underlying LRU store in recency order
(most recent first) plus configuration and counters. -/
structure MOCache (α : Type) where
  entries : List (String × CacheEntry α) := []
  maxSize : Nat := 100
  defaultTTL : Nat := 600000
  stats : CacheStats := {}
deriving DecidableEq, Repr

/-- Remove a key from the LRU store (no dispose accounting). -/
def lruRemove {α : Type} (l : List (String × CacheEntry α)) (k : String) :
    List (String × CacheEntry α) :=
  l.filter (fun kv => kv.1 != k)

/-- `lru-cache` `get`: promote a present key to the front. -/
def lruGet {α : Type} (c : MOCache α) (k : String) :
    Option (CacheEntry α) × MOCache α :=
  match c.entries.lookup k with
  | some e => (some e, { c with entries := (k, e) :: lruRemove c.entries k })
  | none => (none, c)

/-- `lru-cache` `set`: overwrite disposes the old value and re-fronts the
key; a fresh insert at capacity disposes the least-recently-used entry (the
back of the recency list).  Each dispose bumps `stats.evictions`. -/
def lruSet {α : Type} (c : MOCache α) (k : String) (e : CacheEntry α) :
    MOCache α :=
  match c.entries.lookup k with
  | some _ =>
    { c with
      entries := (k, e) :: lruRemove c.entries k
      stats := { c.stats with evictions := c.stats.evictions + 1 } }
  | none =>
    if c.entries.length ≥ c.maxSize then
      { c with
        entries := (k, e) :: c.entries.dropLast
        stats := { c.stats with evictions := c.stats.evictions + 1 } }
    else
      { c with entries := (k, e) :: c.entries }

/-- `lru-cache` `delete`: removing a present key disposes it. -/
def lruDelete {α : Type} (c : MOCache α) (k : String) : Bool × MOCache α :=
  if (c.entries.lookup k).isSome then
    (true,
     { c with
       entries := lruRemove c.entries k
       stats := { c.stats with evictions := c.stats.evictions + 1 } })
  else (false, c)

/-- The wrapper's expiry test `Date.now() - entry.timestamp > entry.ttl`. -/
def entryExpired {α : Type} (e : CacheEntry α) (now : Nat) : Bool :=
  now - e.timestamp > e.ttl

/-- `MemoryOptimizedCache.get`: miss on absent, delete-and-miss on expired,
otherwise bump the entry's access statistics and count a hit. -/
def mocGet {α : Type} (c : MOCache α) (k : String) (now : Nat) :
    Option α × MOCache α :=
  match lruGet c k with
  | (none, c) => (none, { c with stats := { c.stats with misses := c.stats.misses + 1 } })
  | (some e, c) =>
    if entryExpired e now then
      let c := (lruDelete c k).2
      (none, { c with stats := { c.stats with misses := c.stats.misses + 1 } })
    else
      let e' := { e with accessCount := e.accessCount + 1, lastAccessed := now }
      (some e.data,
       { c with
         entries := mapSet c.entries k e'
         stats := { c.stats with hits := c.stats.hits + 1 } })

/-- `performCleanup`: delete every expired entry (each deletion disposes). -/
def performCleanup {α : Type} (c : MOCache α) (now : Nat) : MOCache α :=
  let expired := c.entries.filter (fun kv => entryExpired kv.2 now)
  { c with
    entries := c.entries.filter (fun kv => !(entryExpired kv.2 now))
    stats := { c.stats with evictions := c.stats.evictions + expired.length } }

/-- `MemoryOptimizedCache.set`: build the entry (`ttl || default`), clean up
first when near the memory threshold, store via the LRU, count a set. -/
def mocSet {α : Type} (c : MOCache α) (k : String) (data : α)
    (ttl : Option Nat) (now : Nat) (nearMemoryLimit : Bool) : MOCache α :=
  let entry : CacheEntry α :=
    { data := data, timestamp := now, ttl := jsOrNat ttl c.defaultTTL,
      accessCount := 1, lastAccessed := now }
  let c := if nearMemoryLimit then performCleanup c now else c
  let c := lruSet c k entry
  { c with stats := { c.stats with sets := c.stats.sets + 1 } }

/-- `MemoryOptimizedCache.delete`: a successful LRU delete also counts in
`stats.deletes`. -/
def mocDelete {α : Type} (c : MOCache α) (k : String) : Bool × MOCache α :=
  match lruDelete c k with
  | (true, c) =>
    (true, { c with stats := { c.stats with deletes := c.stats.deletes + 1 } })
  | (false, c) => (false, c)

/-- `MemoryOptimizedCache.has`: a presence probe that reads through the LRU
`get` (promoting recency without touching the entry's `lastAccessed`) and
deletes an expired entry. -/
def mocHas {α : Type} (c : MOCache α) (k : String) (now : Nat) :
    Bool × MOCache α :=
  match lruGet c k with
  | (none, c) => (false, c)
  | (some e, c) =>
    if entryExpired e now then (false, (lruDelete c k).2)
    else (true, c)

/-! ## Session registry (`SessionConfigManager`) -/

/-- `rateLimit` configuration (`types.ts`). -/
structure RateLimit where
  requestsPerSecond : Nat
  burstSize : Nat
deriving DecidableEq, Repr

/-- `SwaggerConfig` from `types.ts` — the argument of `createOrUpdateSession`. -/
structure SwaggerConfig where
  swaggerUrls : List String
  customHeaders : Option (List (String × String)) := none
  cacheTTL : Option Nat := none
  rateLimit : Option RateLimit := none
deriving DecidableEq, Repr

/-- `SessionConfig` from `types.ts`. -/
structure SessionConfig where
  id : String
  swaggerUrls : List String
  customHeaders : List (String × String)
  cacheTTL : Nat
  rateLimit : Option RateLimit
  createdAt : Nat
  lastAccessed : Nat
  isActive : Bool
deriving DecidableEq, Repr

/-- The `SessionConfigManager` state: the `sessions` map plus the global
configuration fields the verified operations read. -/
structure ManagerState where
  sessions : List (String × SessionConfig)
  defaultCacheTTL : Nat := 600000
  maxSessions : Nat := 100
deriving DecidableEq, Repr

/-- `removeOldestInactiveSession`'s scan: the inactive session with the
smallest `lastAccessed`, starting from `oldestTime = Date.now()` (so an
inactive session accessed at or after `now` is never selected). -/
def oldestInactive (sessions : List (String × SessionConfig)) (now : Nat) :
    Option SessionConfig :=
  (sessions.foldl
    (fun acc kv =>
      if !kv.2.isActive && kv.2.lastAccessed < acc.1 then
        (kv.2.lastAccessed, some kv.2)
      else acc)
    (now, (none : Option SessionConfig))).2

/-- `removeOldestInactiveSession`. -/
def removeOldestInactiveSession (st : ManagerState) (now : Nat) : ManagerState :=
  match oldestInactive st.sessions now with
  | some s => { st with sessions := st.sessions.filter (fun kv => kv.1 != s.id) }
  | none => st

/-- `createOrUpdateSession`: build the new record (keeping a truthy existing
`createdAt`), evict the oldest inactive session when a fresh insert would
exceed `maxSessions`, then store. -/
def createOrUpdateSession (st : ManagerState) (sessionId : String)
    (config : SwaggerConfig) (now : Nat) : SessionConfig × ManagerState :=
  let existing := st.sessions.lookup sessionId
  let sc : SessionConfig :=
    { id := sessionId
      swaggerUrls := config.swaggerUrls
      customHeaders := config.customHeaders.getD []
      cacheTTL := jsOrNat config.cacheTTL st.defaultCacheTTL
      rateLimit := config.rateLimit
      createdAt :=
        match existing with
        | some e => if e.createdAt = 0 then now else e.createdAt
        | none => now
      lastAccessed := now
      isActive := true }
  let st :=
    if existing.isNone && st.sessions.length ≥ st.maxSessions then
      removeOldestInactiveSession st now
    else st
  (sc, { st with sessions := mapSet st.sessions sessionId sc })

/-- `getSession`: a hit refreshes the stored session's `lastAccessed` in
place and returns it. -/
def getSession (st : ManagerState) (sessionId : String) (now : Nat) :
    Option SessionConfig × ManagerState :=
  match st.sessions.lookup sessionId with
  | some s =>
    let s' := { s with lastAccessed := now }
    (some s', { st with sessions := mapSet st.sessions sessionId s' })
  | none => (none, st)

/-! ## Session helpers (`src/utils/sessionHelpers.ts`) -/

/-- `generateSessionIdFromUrl`: `"session_"` plus the first 16 hex characters
of the SHA-256 of the URL. -/
def generateSessionIdFromUrl (url : String) : String :=
  "session_" ++ (sha256Hex url).take 16

/-- `getOrCreateSession`: derive the id from the URL; reuse an existing
session (`created = false`), otherwise create one through
`autoCreateSession` → `handleDynamicSwaggerConfig` → `configureSession`,
which lands in `createOrUpdateSession` with `swaggerUrls = [url]` and
`cacheTTL = options?.cache_ttl || 600000`. -/
def getOrCreateSession (st : ManagerState) (url : String)
    (cacheTtl : Option Nat) (customHeaders : Option (List (String × String)))
    (now : Nat) : (String × Bool) × ManagerState :=
  let sessionId := generateSessionIdFromUrl url
  match getSession st sessionId now with
  | (some _, st') => ((sessionId, false), st')
  | (none, st') =>
    let st'' := (createOrUpdateSession st' sessionId
      { swaggerUrls := [url]
        customHeaders := customHeaders
        cacheTTL := some (jsOrNat cacheTtl 600000)
        rateLimit := none } now).2
    ((sessionId, true), st'')

/-! ## Derived definitions for the statements -/

/-- The descending-relevance order on results. -/
def rgeq (x y : SearchResult) : Prop := y.relevance ≤ x.relevance

/-- All stored relevance values are non-negative. -/
def NN (m : List (String × SearchResult)) : Prop := ∀ kv ∈ m, 0 ≤ (kv.2).relevance

/-- Non-negativity of every pre-built keyword entry of a searchable index. -/
def NNsi (si : List (String × List SearchResult)) : Prop :=
  ∀ kv ∈ si, ∀ m ∈ kv.2, 0 ≤ m.relevance

/-- The tail of `applySearchParams` after strategy selection: the optional
method filter followed by the limit. -/
def postProcess (B : List SearchResult) (p : SearchParams) : List SearchResult :=
  (if optNonempty p.methods then filterByMethod B (p.methods.getD []) else B).take
    (limitOrDefault p.limit)

/-! ## Concrete example data used by witnesses -/

/-- A one-endpoint summary used by the witness instances. -/
def exSummary : EndpointSummary :=
  { method := "GET", path := "/admin/settings", description := some "admin settings" }

/-- A one-endpoint index with a lowercase `admin` tag key. -/
def exIdx : APIIndex :=
  { metadata := { totalEndpoints := 1, tags := ["admin"], version := "1.0",
                  title := "Example" }
    tagIndex := [("admin", ["/admin/settings"])]
    pathIndex := [("GET-/admin/settings", exSummary)]
    searchableIndex := [] }

/-- An endpoint whose path contains a literal unbalanced opening brace. -/
def cxSummary : EndpointSummary := { method := "GET", path := "/x\x7bunbalanced" }

/-- An index holding `cxSummary`, used by the malformed-pattern witness. -/
def cxIdx : APIIndex :=
  { metadata := { totalEndpoints := 1, tags := [], version := "1.0",
                  title := "Example" }
    tagIndex := []
    pathIndex := [("GET-/x\x7bunbalanced", cxSummary)]
    searchableIndex := [] }

/-- A fetched document whose one operation carries the mixed-case tag
`"Admin"`. -/
def adminMeta : SwaggerMetadata :=
  { info := { title := "Example", version := "1.0" }
    servers := none
    paths := [("/admin/settings", { get := some { tags := some ["Admin"] } })] }

/-- Document metadata for the conditional-refresh witness: expiry at 1000. -/
def exDocMeta : DocumentMetadata :=
  { etag := some "W-abc", lastModified := none, contentHash := "h",
    downloadedAt := 0, expiresAt := 1000 }

/-- A cached timestamped index for the refresh witness. -/
def exTIndex : TimestampedAPIIndex := { index := exIdx, timestamp := some 5 }

/-- A loader state holding `exTIndex`/`exDocMeta` under the key of one
URL/session pair. -/
def exLoaderState : LoaderState :=
  { indexCache := [(generateIndexKey "https://e/s.json" "sess", exTIndex)]
    metadataCache := []
    documentMetadataCache :=
      [(generateIndexKey "https://e/s.json" "sess", exDocMeta)] }

/-- A fetched body with neither an `openapi` nor a `swagger` marker. -/
def badDoc : SwaggerDoc := { info := { title := "t", version := "1" } }

/-- The response delivering `badDoc`. -/
def badResp : FetchResponse := { data := badDoc }

/-- A two-slot cache over `Nat` values. -/
def c0 : MOCache Nat := { maxSize := 2, defaultTTL := 1000000 }

/-- `set "a"` at time 1. -/
def cA : MOCache Nat := mocSet c0 "a" 10 none 1 false

/-- then `set "b"` at time 2. -/
def cB : MOCache Nat := mocSet cA "b" 20 none 2 false

/-- then `has "a"` at time 3 — promotes `"a"` in the LRU without touching
its `lastAccessed`. -/
def cH : MOCache Nat := (mocHas cB "a" 3).2

/-- then `set "c"` at time 4 — a fresh insert at capacity, forcing an
eviction. -/
def cC : MOCache Nat := mocSet cH "c" 30 none 4 false

/-- A small result list (one result with a method, one without) for the
method-filter witness. -/
def exResults : List SearchResult :=
  [{ path := "/a", relevance := 1, method := some "get" },
   { path := "/b", relevance := 1 }]

/-- A session configuration with one URL and all optional fields absent. -/
def exCfg : SwaggerConfig := { swaggerUrls := ["https://a"] }

/-- A stored session for the URL `"https://a"` under its derived id. -/
def exSession : SessionConfig :=
  { id := generateSessionIdFromUrl "https://a", swaggerUrls := ["https://a"],
    customHeaders := [], cacheTTL := 600000, rateLimit := none,
    createdAt := 1, lastAccessed := 1, isActive := true }

/-- A manager state already holding `exSession`. -/
def exMgr : ManagerState := { sessions := [(exSession.id, exSession)] }

/-! ## Helper lemmas -/

theorem lookup_mem {β : Type} {l : List (String × β)} {k : String} {v : β}
    (h : l.lookup k = some v) : (k, v) ∈ l := by
  induction l with
  | nil => simp [List.lookup] at h
  | cons a t ih =>
    rw [List.lookup] at h
    by_cases hk : k == a.1
    · simp [hk] at h
      simp [← h, (beq_iff_eq ..).mp hk]
    · simp [hk] at h
      exact List.mem_cons_of_mem _ (ih h)

theorem lookup_map_replace {β : Type} (l : List (String × β)) (k : String)
    (v : β) :
    (l.map (fun kv => if kv.1 = k then (k, v) else kv)).lookup k =
      if (l.lookup k).isSome then some v else none := by
  induction l with
  | nil => simp [List.lookup]
  | cons a t ih =>
    obtain ⟨a1, a2⟩ := a
    by_cases h : a1 = k
    · subst h
      simp only [List.map_cons, if_pos rfl]
      rw [List.lookup, List.lookup, show (a1 == a1) = true from beq_self_eq_true a1]
      simp
    · have hne : (k == a1) = false := beq_eq_false_iff_ne.mpr (Ne.symm h)
      simp only [List.map_cons, if_neg h]
      rw [List.lookup, List.lookup, hne]
      exact ih

theorem lookup_append_of_none {β : Type} {l : List (String × β)} {k : String}
    (v : β) (h : l.lookup k = none) : (l ++ [(k, v)]).lookup k = some v := by
  induction l with
  | nil => simp [List.lookup]
  | cons a t ih =>
    obtain ⟨a1, a2⟩ := a
    by_cases hkp : k = a1
    · exfalso
      rw [List.lookup, show (k == a1) = true from beq_iff_eq.mpr hkp] at h
      cases h
    · have hne : (k == a1) = false := beq_eq_false_iff_ne.mpr hkp
      rw [List.lookup, hne] at h
      rw [List.cons_append, List.lookup, hne]
      exact ih h

theorem mapSet_lookup_self {β : Type} (l : List (String × β)) (k : String)
    (v : β) : (mapSet l k v).lookup k = some v := by
  rw [mapSet]
  split
  · rename_i h
    rw [lookup_map_replace, if_pos h]
  · rename_i h
    refine lookup_append_of_none v ?_
    rcases hl : l.lookup k with _ | w
    · rfl
    · exact absurd (by rw [hl]; rfl) h

theorem mapSet_keys_of_isSome {β : Type} {l : List (String × β)} {k : String}
    (v : β) (h : (l.lookup k).isSome = true) :
    (mapSet l k v).map Prod.fst = l.map Prod.fst := by
  rw [mapSet, if_pos h, List.map_map]
  refine List.map_congr_left (fun kv _ => ?_)
  by_cases hk : kv.1 = k
  · simp [hk]
  · simp [hk]

theorem mem_insertDesc {r a : SearchResult} {l : List SearchResult} :
    r ∈ insertDesc a l ↔ r = a ∨ r ∈ l := by
  induction l with
  | nil => simp [insertDesc]
  | cons b t ih =>
    rw [insertDesc]
    split
    · simp
    · simp only [List.mem_cons, ih]
      tauto

theorem mem_sortDesc {r : SearchResult} {l : List SearchResult} :
    r ∈ sortByRelevanceDesc l ↔ r ∈ l := by
  induction l with
  | nil => simp [sortByRelevanceDesc]
  | cons a t ih => rw [sortByRelevanceDesc, mem_insertDesc, ih]; simp

theorem pairwise_insertDesc {a : SearchResult} {l : List SearchResult}
    (h : l.Pairwise rgeq) : (insertDesc a l).Pairwise rgeq := by
  induction l with
  | nil => simp [insertDesc, List.pairwise_cons]
  | cons b t ih =>
    rw [insertDesc]
    rcases List.pairwise_cons.mp h with ⟨hb, ht⟩
    split
    · rename_i hle
      refine List.pairwise_cons.mpr ⟨?_, h⟩
      intro x hx
      rcases List.mem_cons.mp hx with rfl | hx
      · exact hle
      · exact le_trans (hb x hx) hle
    · rename_i hgt
      refine List.pairwise_cons.mpr ⟨?_, ih ht⟩
      intro x hx
      rcases mem_insertDesc.mp hx with rfl | hx
      · exact le_of_lt (not_le.mp hgt)
      · exact hb x hx

theorem pairwise_sortDesc (l : List SearchResult) :
    (sortByRelevanceDesc l).Pairwise rgeq := by
  induction l with
  | nil => simp [sortByRelevanceDesc]
  | cons a t ih => exact pairwise_insertDesc ih

theorem sortDesc_of_pairwise {l : List SearchResult} (h : l.Pairwise rgeq) :
    sortByRelevanceDesc l = l := by
  induction l with
  | nil => rfl
  | cons a t ih =>
    rcases List.pairwise_cons.mp h with ⟨ha, ht⟩
    rw [sortByRelevanceDesc, ih ht]
    cases t with
    | nil => rfl
    | cons b t' =>
      rw [insertDesc,
        if_pos (show b.relevance ≤ a.relevance from ha b (List.mem_cons_self ..))]

theorem sortDesc_of_const {l : List SearchResult} {c : ℚ}
    (h : ∀ r ∈ l, r.relevance = c) : sortByRelevanceDesc l = l := by
  refine sortDesc_of_pairwise ?_
  induction l with
  | nil => exact List.Pairwise.nil
  | cons a t ih =>
    refine List.pairwise_cons.mpr ⟨?_, ih (fun r hr => h r (List.mem_cons_of_mem _ hr))⟩
    intro x hx
    rw [rgeq, h a (List.mem_cons_self ..), h x (List.mem_cons_of_mem _ hx)]

theorem dedupGo_sublist (seen : List String) (l : List SearchResult) :
    List.Sublist (dedupGo seen l) l := by
  induction l generalizing seen with
  | nil => simp [dedupGo]
  | cons r t ih =>
    rw [dedupGo]
    split
    · exact (ih seen).trans (List.sublist_cons_self ..)
    · exact List.Sublist.cons₂ _ (ih _)

theorem dedupGo_keys (seen : List String) (l : List SearchResult) :
    (∀ r ∈ dedupGo seen l, dedupKey r ∉ seen) ∧
      (dedupGo seen l).Pairwise (fun a b => dedupKey a ≠ dedupKey b) := by
  induction l generalizing seen with
  | nil => simp [dedupGo]
  | cons r t ih =>
    rw [dedupGo]
    split
    · exact ih seen
    · rename_i hseen
      constructor
      · intro x hx
        rcases List.mem_cons.mp hx with rfl | hx
        · exact hseen
        · intro hmem
          exact (ih (dedupKey r :: seen)).1 x hx (List.mem_cons_of_mem _ hmem)
      · refine List.pairwise_cons.mpr ⟨?_, (ih _).2⟩
        intro x hx heq
        exact (ih (dedupKey r :: seen)).1 x hx (heq ▸ List.mem_cons_self ..)

theorem nn_nil : NN [] := by intro kv h; simp at h

theorem foldl_preserve {α β : Type} {P : β → Prop} {f : β → α → β} :
    ∀ (l : List α) (b : β), (∀ b a, a ∈ l → P b → P (f b a)) → P b →
      P (l.foldl f b)
  | [], _, _, hb => hb
  | a :: t, b, hstep, hb =>
    foldl_preserve t (f b a)
      (fun b' a' ha' => hstep b' a' (List.mem_cons_of_mem _ ha'))
      (hstep b a (List.mem_cons_self ..) hb)

theorem addOrUpdateMatch_nonneg {ms : List (String × SearchResult)}
    {s : EndpointSummary} {rel : ℚ}
    (h : ∀ kv ∈ ms, 0 ≤ (kv.2).relevance) (hrel : 0 ≤ rel) :
    ∀ kv ∈ addOrUpdateMatch ms s rel, 0 ≤ (kv.2).relevance := by
  intro kv hkv
  rw [addOrUpdateMatch] at hkv
  rcases hlk : ms.lookup (s.method ++ "-" ++ s.path) with _ | v
  · rw [hlk] at hkv
    simp only at hkv
    rcases List.mem_append.mp hkv with hkv | hkv
    · exact h kv hkv
    · simp at hkv
      simp [hkv, hrel]
  · rw [hlk] at hkv
    simp only at hkv
    rcases List.mem_map.mp hkv with ⟨kv', hkv', heq⟩
    by_cases hk : kv'.1 = s.method ++ "-" ++ s.path
    · simp only [hk, if_pos rfl] at heq
      rw [← heq]
      exact add_nonneg (h kv' hkv') (mul_nonneg hrel (by norm_num))
    · simp only [if_neg hk] at heq
      exact heq ▸ h kv' hkv'

theorem ite_add_nonneg {ms : List (String × SearchResult)}
    {s : EndpointSummary} {rel : ℚ} (c : Prop) [Decidable c]
    (hrel : 0 ≤ rel) (h : ∀ kv ∈ ms, 0 ≤ (kv.2).relevance) :
    ∀ kv ∈ (if c then addOrUpdateMatch ms s rel else ms), 0 ≤ (kv.2).relevance := by
  split
  · exact addOrUpdateMatch_nonneg h hrel
  · exact h

theorem keywordFieldStep_nonneg {ms : List (String × SearchResult)}
    {kw : String} {s : EndpointSummary}
    (h : ∀ kv ∈ ms, 0 ≤ (kv.2).relevance) :
    ∀ kv ∈ keywordFieldStep kw ms s, 0 ≤ (kv.2).relevance := by
  rw [keywordFieldStep]
  exact ite_add_nonneg _ (by norm_num)
    (ite_add_nonneg _ (by norm_num)
      (ite_add_nonneg _ (by norm_num)
        (ite_add_nonneg _ (by norm_num)
          (ite_add_nonneg _ (by norm_num) h))))

theorem keywordStep_nonneg {idx : APIIndex} {kw : String}
    {ms : List (String × SearchResult)}
    (hwf : ∀ kv ∈ idx.searchableIndex, ∀ m ∈ kv.2, 0 ≤ m.relevance)
    (h : ∀ kv ∈ ms, 0 ≤ (kv.2).relevance) :
    ∀ kv ∈ keywordStep idx kw ms, 0 ≤ (kv.2).relevance := by
  rw [keywordStep]
  have h1 : ∀ kv ∈ idx.pathIndex.foldl
      (fun m kv => keywordFieldStep kw m kv.2) ms, 0 ≤ (kv.2).relevance := by
    refine foldl_preserve (P := NN) _ _
      (fun m p _ hm => keywordFieldStep_nonneg hm) h
  rcases hlk : idx.searchableIndex.lookup kw with _ | ims
  · simp only [hlk]
    exact h1
  · simp only [hlk]
    refine foldl_preserve (P := NN) _ _
      (fun m mt hmt hm => ?_) h1
    rcases hfind : idx.pathIndex.find? (fun kv => kv.2.path == mt.path) with _ | kv
    · simp only [hfind]
      exact hm
    · simp only [hfind]
      exact addOrUpdateMatch_nonneg hm (hwf _ (lookup_mem hlk) mt hmt)

theorem keywordMatches_nonneg {idx : APIIndex} {keywords : List String}
    (hwf : ∀ kv ∈ idx.searchableIndex, ∀ m ∈ kv.2, 0 ≤ m.relevance) :
    ∀ kv ∈ keywordMatches idx keywords, 0 ≤ (kv.2).relevance := by
  rw [keywordMatches]
  exact foldl_preserve (P := NN) _ _
    (fun m kw _ hm => keywordStep_nonneg hwf hm) nn_nil

theorem patternMatches_pos {regexOf : String → String → Bool} {idx : APIIndex}
    {pattern : String} :
    ∀ r ∈ patternMatches regexOf idx pattern, 0 < r.relevance := by
  intro r hr
  rw [patternMatches] at hr
  rcases List.mem_filterMap.mp hr with ⟨kv, _, hf⟩
  rw [patternEntry] at hf
  split at hf
  · cases hf
    assumption
  · cases hf

theorem searchByTag_relevance {idx : APIIndex} {tags : List String} :
    ∀ r ∈ searchByTag idx tags, r.relevance = 1 := by
  intro r hr
  rw [searchByTag, deduplicateResults] at hr
  have hr' := (dedupGo_sublist [] _).subset hr
  rcases List.mem_flatten.mp hr' with ⟨l, hl, hrl⟩
  rcases List.mem_map.mp hl with ⟨tag, _, rfl⟩
  rw [tagHits] at hrl
  rcases List.mem_flatten.mp hrl with ⟨l', hl', hrl'⟩
  rcases List.mem_map.mp hl' with ⟨path, _, rfl⟩
  rcases List.mem_filterMap.mp hrl' with ⟨kv, _, hf⟩
  rw [tagEntry] at hf
  split at hf
  · cases hf; rfl
  · cases hf

theorem defaultListing_relevance {idx : APIIndex} {lo : Option Nat} :
    ∀ r ∈ defaultListing idx lo, r.relevance = 1/10 := by
  intro r hr
  rw [defaultListing] at hr
  rcases List.mem_map.mp hr with ⟨kv, _, rfl⟩
  rfl

theorem mem_mapSet {β : Type} {si : List (String × β)} {k : String} {v : β} :
    ∀ kv ∈ mapSet si k v, kv.2 = v ∨ kv ∈ si := by
  rw [mapSet]
  split
  · intro kv hkv
    rcases List.mem_map.mp hkv with ⟨kv', h', heq⟩
    by_cases hk : kv'.1 = k
    · left
      rw [← heq, if_pos hk]
    · right
      rw [← heq, if_neg hk]
      exact h'
  · intro kv hkv
    rcases List.mem_append.mp hkv with h' | h'
    · right
      exact h'
    · left
      simp at h'
      rw [h']

theorem calculateRelevance_nonneg (kw path : String) (s : EndpointSummary) :
    0 ≤ calculateRelevance kw path s := by
  rw [calculateRelevance]
  split_ifs <;> norm_num

theorem addToSearchableIndex_nonneg {si : List (String × List SearchResult)}
    {path : String} {s : EndpointSummary} (h : NNsi si) :
    NNsi (addToSearchableIndex si path s) := by
  rw [addToSearchableIndex]
  refine foldl_preserve (P := NNsi) _ _ (fun si' kw _ hsi' => ?_) h
  split
  · exact hsi'
  · rcases hlk : si'.lookup kw with _ | l
    · simp only [hlk]
      intro kv hkv m hm
      rcases List.mem_append.mp hkv with h' | h'
      · exact hsi' kv h' m hm
      · simp at h'
        rw [h'] at hm
        simp at hm
        rw [hm]
        exact calculateRelevance_nonneg _ _ _
    · simp only [hlk]
      intro kv hkv m hm
      rcases mem_mapSet kv hkv with h' | h'
      · rw [h'] at hm
        rcases List.mem_append.mp hm with h'' | h''
        · exact hsi' _ (lookup_mem hlk) m h''
        · simp at h''
          rw [h'']
          exact calculateRelevance_nonneg _ _ _
      · exact hsi' kv h' m hm

theorem processOperation_nonneg {acc : BuildAcc} {path mname : String}
    {op : Operation} (h : NNsi acc.searchableIndex) :
    NNsi (processOperation acc path mname op).searchableIndex := by
  rw [processOperation]
  have htags : ∀ (l : List String) (a : BuildAcc), NNsi a.searchableIndex →
      NNsi ((l.foldl (fun acc tag =>
        { acc with
          allTags := addTag acc.allTags tag
          tagIndex := tagIndexAdd acc.tagIndex tag path }) a)).searchableIndex :=
    fun l a ha => foldl_preserve
      (P := fun b : BuildAcc => NNsi b.searchableIndex) _ _
      (fun b tag _ hb => hb) ha
  exact addToSearchableIndex_nonneg (htags _ _ h)

theorem buildLightweightIndex_nonneg (md : SwaggerMetadata) :
    NNsi (buildLightweightIndex md).searchableIndex := by
  rw [buildLightweightIndex]
  refine foldl_preserve
    (P := fun b : BuildAcc => NNsi b.searchableIndex) _ _
    (fun b pkv _ hb => ?_) (fun kv h => nomatch h)
  refine foldl_preserve
    (P := fun b : BuildAcc => NNsi b.searchableIndex) _ _
    (fun b' mop _ hb' => ?_) hb
  rcases mop.2 with _ | op
  · exact hb'
  · exact processOperation_nonneg hb'

theorem pairwise_of_const {l : List SearchResult} {c : ℚ}
    (h : ∀ r ∈ l, r.relevance = c) : l.Pairwise rgeq := by
  induction l with
  | nil => exact List.Pairwise.nil
  | cons a t ih =>
    refine List.pairwise_cons.mpr ⟨?_, ih (fun r hr => h r (List.mem_cons_of_mem _ hr))⟩
    intro x hx
    rw [rgeq, h a (List.mem_cons_self ..), h x (List.mem_cons_of_mem _ hx)]

theorem postProcess_sublist (B : List SearchResult) (p : SearchParams) :
    List.Sublist (postProcess B p) B := by
  refine (List.take_sublist _ _).trans ?_
  split
  · rw [filterByMethod]
    split
    · exact List.Sublist.refl _
    · exact List.filter_sublist _
  · exact List.Sublist.refl _

theorem postProcess_props {B S : List SearchResult} (p : SearchParams)
    (hn : ∀ r ∈ B, 0 ≤ r.relevance) (hs : B.Pairwise rgeq)
    (hsub : List.Sublist B S) :
    (∀ r ∈ postProcess B p, 0 ≤ r.relevance) ∧
      (postProcess B p).Pairwise rgeq ∧
      List.Sublist (postProcess B p) S := by
  have hT := postProcess_sublist B p
  exact ⟨fun r hr => hn r (hT.subset hr), hs.sublist hT, hT.trans hsub⟩

theorem applySearchParams_eq_postProcess
    (regexOf : String → String → Bool) (idx : APIIndex) (p : SearchParams) :
    applySearchParams regexOf idx p =
      postProcess
        (if optNonempty p.tags then searchByTag idx (p.tags.getD [])
         else if isTruthyStr p.pattern then
           searchByPattern regexOf idx (p.pattern.getD "")
         else if optNonempty p.keywords then
           searchByKeywords idx (p.keywords.getD [])
         else defaultListing idx p.limit) p := by
  rw [applySearchParams, postProcess]

/-! ## Claim theorems -/

/-- **C3**: `applySearchParams` evaluates exactly one strategy, selected by
priority — non-empty `tags` first, then a truthy `pattern`, then non-empty
`keywords`, otherwise the default listing of the first `limit || 20`
operations at relevance `0.1` — and applies the method filter and the
caller's limit to that strategy's output. -/
theorem applySearchParams_strategy_priority
    (regexOf : String → String → Bool) (idx : APIIndex) (p : SearchParams) :
    (optNonempty p.tags = true →
      applySearchParams regexOf idx p =
        postProcess (searchByTag idx (p.tags.getD [])) p) ∧
    (optNonempty p.tags = false → isTruthyStr p.pattern = true →
      applySearchParams regexOf idx p =
        postProcess (searchByPattern regexOf idx (p.pattern.getD "")) p) ∧
    (optNonempty p.tags = false → isTruthyStr p.pattern = false →
      optNonempty p.keywords = true →
      applySearchParams regexOf idx p =
        postProcess (searchByKeywords idx (p.keywords.getD [])) p) ∧
    (optNonempty p.tags = false → isTruthyStr p.pattern = false →
      optNonempty p.keywords = false →
      applySearchParams regexOf idx p =
        postProcess (defaultListing idx p.limit) p) := by
  refine ⟨fun h1 => ?_, fun h1 h2 => ?_, fun h1 h2 h3 => ?_, fun h1 h2 h3 => ?_⟩ <;>
    rw [applySearchParams_eq_postProcess] <;>
    simp only [h1, if_true, if_false, Bool.false_eq_true]
  · simp only [h2, if_true]
  · simp only [h2, h3, if_true, if_false, Bool.false_eq_true]
  · simp only [h2, h3, if_false, Bool.false_eq_true]

theorem applySearchParams_strategy_priority_witness :
    applySearchParams (fun _ _ => false) exIdx { tags := some ["admin"] } =
      postProcess (searchByTag exIdx ["admin"]) { tags := some ["admin"] } :=
  (applySearchParams_strategy_priority (fun _ _ => false) exIdx
    { tags := some ["admin"] }).1 (by decide)

/-- **C7**: every result `applySearchParams` returns has non-negative
relevance (given an index whose pre-built keyword entries are themselves
non-negatively scored, as built indexes are), the returned sequence is
descending in relevance, and it is a sublist of the stable descending sort
of the chosen strategy's discovery-ordered matches — so ties stay in
discovery order. -/
theorem applySearchParams_sorted_nonneg
    (regexOf : String → String → Bool) (idx : APIIndex) (p : SearchParams)
    (hwf : ∀ kv ∈ idx.searchableIndex, ∀ m ∈ kv.2, 0 ≤ m.relevance) :
    (∀ r ∈ applySearchParams regexOf idx p, 0 ≤ r.relevance) ∧
      (applySearchParams regexOf idx p).Pairwise rgeq ∧
      List.Sublist (applySearchParams regexOf idx p)
        (sortByRelevanceDesc (discoveredResults regexOf idx p)) ∧
      (∀ md : SwaggerMetadata, NNsi (buildLightweightIndex md).searchableIndex) := by
  have hrest :
      (∀ r ∈ applySearchParams regexOf idx p, 0 ≤ r.relevance) ∧
        (applySearchParams regexOf idx p).Pairwise rgeq ∧
        List.Sublist (applySearchParams regexOf idx p)
          (sortByRelevanceDesc (discoveredResults regexOf idx p)) := ?_
  · exact ⟨hrest.1, hrest.2.1, hrest.2.2, buildLightweightIndex_nonneg⟩
  rw [applySearchParams_eq_postProcess, discoveredResults]
  by_cases h1 : optNonempty p.tags = true
  · simp only [h1, if_true]
    have hc : ∀ r ∈ searchByTag idx (p.tags.getD []), r.relevance = 1 :=
      searchByTag_relevance
    rw [sortDesc_of_const hc]
    exact postProcess_props p (fun r hr => (hc r hr) ▸ zero_le_one)
      (pairwise_of_const hc) (List.Sublist.refl _)
  · rw [Bool.not_eq_true] at h1
    simp only [h1, Bool.false_eq_true, if_false]
    by_cases h2 : isTruthyStr p.pattern = true
    · simp only [h2, if_true]
      refine postProcess_props p (fun r hr => ?_) ?_ ?_
      · rw [searchByPattern] at hr
        exact le_of_lt (patternMatches_pos r (mem_sortDesc.mp hr))
      · rw [searchByPattern]
        exact pairwise_sortDesc _
      · rw [searchByPattern]
    · rw [Bool.not_eq_true] at h2
      simp only [h2, Bool.false_eq_true, if_false]
      by_cases h3 : optNonempty p.keywords = true
      · simp only [h3, if_true]
        rw [searchByKeywords]
        refine postProcess_props p (fun r hr => ?_)
          ((pairwise_sortDesc _).sublist (List.take_sublist _ _))
          (List.take_sublist _ _)
        have hr' := mem_sortDesc.mp ((List.take_sublist _ _).subset hr)
        rcases List.mem_map.mp hr' with ⟨kv, hkv, rfl⟩
        exact keywordMatches_nonneg hwf kv hkv
      · rw [Bool.not_eq_true] at h3
        simp only [h3, Bool.false_eq_true, if_false]
        have hc : ∀ r ∈ defaultListing idx p.limit, r.relevance = 1/10 :=
          defaultListing_relevance
        rw [sortDesc_of_const hc]
        exact postProcess_props p (fun r hr => (hc r hr) ▸ (by norm_num))
          (pairwise_of_const hc) (List.Sublist.refl _)

theorem applySearchParams_sorted_nonneg_witness :
    (∀ r ∈ applySearchParams (fun _ _ => false) exIdx
        { keywords := some ["admin"] }, 0 ≤ r.relevance) ∧
      (applySearchParams (fun _ _ => false) exIdx
        { keywords := some ["admin"] }).Pairwise rgeq ∧
      List.Sublist (applySearchParams (fun _ _ => false) exIdx
          { keywords := some ["admin"] })
        (sortByRelevanceDesc (discoveredResults (fun _ _ => false) exIdx
          { keywords := some ["admin"] })) ∧
      (∀ md : SwaggerMetadata, NNsi (buildLightweightIndex md).searchableIndex) :=
  applySearchParams_sorted_nonneg _ _ _ (by decide)

/-- **C8**: pattern search totally evaluates for every pattern string — the
regex matcher is an arbitrary function covering both a successful compile
and the escaped-literal fallback — and every endpoint whose lowercased path
contains the lowercased pattern literally is returned at the path-contains
tier (`0.8`; `1.0` when the path equals the pattern exactly). -/
theorem patternSearch_substring_fallback
    (regexOf : String → String → Bool) (idx : APIIndex) (pattern : String)
    {k : String} {s : EndpointSummary}
    (hmem : (k, s) ∈ idx.pathIndex)
    (hsub : strContains (strLower s.path) (strLower pattern) = true) :
    ∃ r ∈ searchByPattern regexOf idx pattern,
      r.path = s.path ∧ r.method = some s.method ∧
        (8/10 : ℚ) ≤ r.relevance ∧
        (s.path ≠ pattern → r.relevance = 8/10) := by
  have hrel : patternRelevance regexOf pattern s = 1 ∨
      patternRelevance regexOf pattern s = 8/10 := by
    rw [patternRelevance]
    by_cases heq : s.path = pattern
    · simp [heq]
    · simp [heq, hsub]
  have hne : s.path ≠ pattern → patternRelevance regexOf pattern s = 8/10 := by
    intro h
    rw [patternRelevance]
    simp [h, hsub]
  have hpos : patternRelevance regexOf pattern s > 0 := by
    rcases hrel with h | h <;> (rw [h]; norm_num)
  refine ⟨{ path := s.path, relevance := patternRelevance regexOf pattern s,
            method := some s.method,
            description := jsOrStr s.description s.summary }, ?_, rfl, rfl, ?_, hne⟩
  · rw [searchByPattern]
    refine mem_sortDesc.mpr (List.mem_filterMap.mpr ⟨(k, s), hmem, ?_⟩)
    rw [patternEntry]
    exact if_pos hpos
  · rcases hrel with h | h
    · rw [h]
      norm_num
    · rw [h]

theorem patternSearch_substring_fallback_witness :
    ∃ r ∈ searchByPattern (fun _ _ => false) cxIdx "\x7bunbal",
      r.path = cxSummary.path ∧ r.method = some cxSummary.method ∧
        (8/10 : ℚ) ≤ r.relevance ∧
        (cxSummary.path ≠ "\x7bunbal" → r.relevance = 8/10) :=
  patternSearch_substring_fallback (fun _ _ => false) cxIdx "\x7bunbal"
    (k := "GET-/x\x7bunbalanced") (s := cxSummary) (by decide) (by decide)

/-- **C6** (counterexample): `buildLightweightIndex` stores tag keys in
their original case, while `searchByTag` lowercases the requested tag and
looks it up verbatim — so for a document whose operation is tagged
`"Admin"`, the index maps `"Admin"` to the path and has the GET operation,
yet searching for the very same tag `"Admin"` (or `"admin"`) yields no
result, refuting "a requested tag matches an indexed tag regardless of
letter case in either". -/
theorem searchByTag_case_counterexample :
    (buildLightweightIndex adminMeta).tagIndex.lookup "Admin" =
        some ["/admin/settings"] ∧
      ((buildLightweightIndex adminMeta).pathIndex.lookup
        "GET-/admin/settings").isSome = true ∧
      searchByTag (buildLightweightIndex adminMeta) ["Admin"] = [] ∧
      searchByTag (buildLightweightIndex adminMeta) ["admin"] = [] := by
  decide

/-- **C6** (amended): tag search lowercases each requested tag and looks the
result up verbatim in the tag index — request-side case-insensitive (the
result depends only on the lowercased request tags) but matching an indexed
tag only when its stored key is that lowercase form.  Every returned result
carries relevance `1.0` and results are deduplicated by the
`(method, path)` key; on the spec's own example (lowercase indexed tag
`admin`), any casing of the request returns exactly the one GET result at
relevance `1.0`. -/
theorem searchByTag_amended :
    (∀ (idx : APIIndex) (tags : List String),
      ∀ r ∈ searchByTag idx tags, r.relevance = 1) ∧
      (∀ (idx : APIIndex) (tags : List String),
        (searchByTag idx tags).Pairwise (fun a b => dedupKey a ≠ dedupKey b)) ∧
      (∀ (idx : APIIndex) (tags tags' : List String),
        tags.map strLower = tags'.map strLower →
          searchByTag idx tags = searchByTag idx tags') ∧
      searchByTag exIdx ["ADMIN"] =
        [{ path := "/admin/settings", relevance := 1, method := some "GET",
           description := some "admin settings", tag := some "admin" }] := by
  refine ⟨fun idx tags => searchByTag_relevance,
    fun idx tags => (dedupGo_keys [] _).2, fun idx tags tags' h => ?_, by decide⟩
  rw [searchByTag, searchByTag, h]

theorem searchByTag_amended_witness :
    searchByTag exIdx ["Admin"] = searchByTag exIdx ["aDmIn"] :=
  searchByTag_amended.2.2.1 exIdx ["Admin"] ["aDmIn"] (by decide)

/-- **C9**: with a non-empty method filter, `filterByMethod` keeps results
in place and in order (a sublist of the input), retains every result with
an absent method, and removes only results carrying a method whose
upper-cased form is outside the upper-cased filter set. -/
theorem filterByMethod_spec (results : List SearchResult)
    (methods : List String) (h : methods ≠ []) :
    List.Sublist (filterByMethod results methods) results ∧
      (∀ r ∈ results, r.method = none → r ∈ filterByMethod results methods) ∧
      (∀ r ∈ results, r ∉ filterByMethod results methods →
        ∃ m, r.method = some m ∧ m ≠ "" ∧
          (methods.map strUpper).contains (strUpper m) = false) := by
  cases methods with
  | nil => exact absurd rfl h
  | cons m0 mt =>
    rw [filterByMethod]
    simp only [List.isEmpty_cons, Bool.false_eq_true, if_false]
    refine ⟨List.filter_sublist _, fun r hr hnone => ?_, fun r hr hnot => ?_⟩
    · refine List.mem_filter.mpr ⟨hr, ?_⟩
      simp [methodKept, hnone, isTruthyStr]
    · have hkept : methodKept ((m0 :: mt).map strUpper) r = false := by
        cases hk : methodKept ((m0 :: mt).map strUpper) r
        · rfl
        · exact absurd (List.mem_filter.mpr ⟨hr, hk⟩) hnot
      rw [methodKept] at hkept
      have h1 : isTruthyStr r.method = true := by
        cases ht : isTruthyStr r.method
        · rw [ht] at hkept
          simp at hkept
        · rfl
      have h2 : ((m0 :: mt).map strUpper).contains
          ((strUpper (r.method.getD ""))) = false := by
        cases hc : ((m0 :: mt).map strUpper).contains
            ((strUpper (r.method.getD "")))
        · rfl
        · rw [hc] at hkept
          simp at hkept
      rcases hm : r.method with _ | m
      · rw [hm] at h1
        simp [isTruthyStr] at h1
      · refine ⟨m, rfl, ?_, ?_⟩
        · intro hemp
          rw [hm] at h1
          simp [isTruthyStr, hemp] at h1
        · rw [hm] at h2
          simpa using h2

theorem filterByMethod_spec_witness :
    List.Sublist (filterByMethod exResults ["GET"]) exResults ∧
      (∀ r ∈ exResults, r.method = none → r ∈ filterByMethod exResults ["GET"]) ∧
      (∀ r ∈ exResults, r ∉ filterByMethod exResults ["GET"] →
        ∃ m, r.method = some m ∧ m ≠ "" ∧
          (["GET"].map strUpper).contains (strUpper m) = false) :=
  filterByMethod_spec exResults ["GET"] (by decide)

/-- The SHA-256 embedding reproduces the FIPS 180-4 test vector for
`"abc"`, validating the hash the session-id and cache-key derivations use. -/
theorem sha256Hex_abc_vector :
    sha256Hex "abc" =
      "ba7816bf8f01cfea414140de5dae2223b00361a396177a9cb410ff61f20015ad" := by
  decide

theorem removeOldest_dTTL (st : ManagerState) (t : Nat) :
    (removeOldestInactiveSession st t).defaultCacheTTL = st.defaultCacheTTL := by
  rw [removeOldestInactiveSession]
  split <;> rfl

theorem createOrUpdate_lookup (st : ManagerState) (id : String)
    (cfg : SwaggerConfig) (t : Nat) :
    (createOrUpdateSession st id cfg t).2.sessions.lookup id =
      some (createOrUpdateSession st id cfg t).1 := by
  rw [createOrUpdateSession]
  exact mapSet_lookup_self _ _ _

theorem createOrUpdate_fst (st : ManagerState) (id : String)
    (cfg : SwaggerConfig) (t : Nat) :
    (createOrUpdateSession st id cfg t).1 =
      { id := id
        swaggerUrls := cfg.swaggerUrls
        customHeaders := cfg.customHeaders.getD []
        cacheTTL := jsOrNat cfg.cacheTTL st.defaultCacheTTL
        rateLimit := cfg.rateLimit
        createdAt :=
          match st.sessions.lookup id with
          | some e => if e.createdAt = 0 then t else e.createdAt
          | none => t
        lastAccessed := t
        isActive := true } := by
  rw [createOrUpdateSession]

theorem createOrUpdate_dTTL (st : ManagerState) (id : String)
    (cfg : SwaggerConfig) (t : Nat) :
    (createOrUpdateSession st id cfg t).2.defaultCacheTTL =
      st.defaultCacheTTL := by
  rw [createOrUpdateSession]
  show (if ((st.sessions.lookup id).isNone &&
        decide (st.sessions.length ≥ st.maxSessions)) = true then
      removeOldestInactiveSession st t
    else st).defaultCacheTTL = st.defaultCacheTTL
  split
  · exact removeOldest_dTTL st t
  · rfl

/-- **C1**: `needsRefresh` answers `true` when either the index cache or the
document-metadata cache misses, and `true` when the stored expiry has
passed; within the expiry window it consults the conditional `HEAD`
outcome: a `304` answers `false` and pushes the stored `expiresAt` 30
minutes out, any other status answers `true`, and a transport error answers
`true` — in every case but the `304` the state is untouched. -/
theorem needsRefresh_spec (st : LoaderState) (url sid : String) (now : Nat)
    (headResult : Except String Nat) :
    ((st.indexCache.lookup (generateIndexKey url sid) = none ∨
        st.documentMetadataCache.lookup (generateIndexKey url sid) = none) →
      needsRefresh st url sid now headResult = (true, st)) ∧
    (∀ ti dm, st.indexCache.lookup (generateIndexKey url sid) = some ti →
      st.documentMetadataCache.lookup (generateIndexKey url sid) = some dm →
      ((now > dm.expiresAt →
          needsRefresh st url sid now headResult = (true, st)) ∧
        (now ≤ dm.expiresAt → headResult = .ok 304 →
          needsRefresh st url sid now headResult =
            (false,
             { st with
               documentMetadataCache :=
                 mapSet st.documentMetadataCache (generateIndexKey url sid)
                   { dm with expiresAt := now + 1800000 } })) ∧
        (now ≤ dm.expiresAt → ∀ c, headResult = .ok c → c ≠ 304 →
          needsRefresh st url sid now headResult = (true, st)) ∧
        (now ≤ dm.expiresAt → ∀ e, headResult = .error e →
          needsRefresh st url sid now headResult = (true, st)))) := by
  constructor
  · intro h
    rw [needsRefresh]
    rcases hI : st.indexCache.lookup (generateIndexKey url sid) with _ | ti
    · rfl
    · rcases hD : st.documentMetadataCache.lookup (generateIndexKey url sid)
        with _ | dm
      · rfl
      · rcases h with h | h
        · rw [hI] at h
          cases h
        · rw [hD] at h
          cases h
  · intro ti dm hti hdm
    refine ⟨fun hgt => ?_, fun hle h304 => ?_, fun hle c hc hne => ?_,
      fun hle e he => ?_⟩
    · simp only [needsRefresh, hti, hdm, if_pos hgt]
    · simp only [needsRefresh, hti, hdm, if_neg (not_lt.mpr hle), h304]
      simp
    · simp only [needsRefresh, hti, hdm, if_neg (not_lt.mpr hle), hc,
        if_neg hne]
    · simp only [needsRefresh, hti, hdm, if_neg (not_lt.mpr hle), he]

theorem needsRefresh_spec_witness :
    needsRefresh exLoaderState "https://e/s.json" "sess" 500 (.ok 304) =
      (false,
       { exLoaderState with
         documentMetadataCache :=
           mapSet exLoaderState.documentMetadataCache
             (generateIndexKey "https://e/s.json" "sess")
             { exDocMeta with expiresAt := 500 + 1800000 } }) :=
  ((needsRefresh_spec exLoaderState "https://e/s.json" "sess" 500
      (.ok 304)).2 exTIndex exDocMeta
    (by simp [exLoaderState, List.lookup])
    (by simp [exLoaderState, List.lookup])).2.1 (by norm_num [exDocMeta]) rfl

/-- **C2**: when no live cached index exists and the fetched body carries
neither version marker, `createIncrementalIndex` fails with
`InvalidDocument` and leaves the whole loader state — index cache, metadata
cache and document-metadata cache — exactly as it was. -/
theorem createIncrementalIndex_invalidDocument (stringify : SwaggerDoc → String)
    (st : LoaderState) (url sid : String) (now : Nat) (resp : FetchResponse)
    (hmiss : ∀ c, st.indexCache.lookup (generateIndexKey url sid) = some c →
      isIndexExpired c now = true)
    (h1 : isTruthyStr resp.data.openapi = false)
    (h2 : isTruthyStr resp.data.swagger = false) :
    createIncrementalIndex stringify st url sid now (.ok resp) =
      (.error .invalidDocument, st) := by
  rw [createIncrementalIndex]
  have hcl : (match st.indexCache.lookup (generateIndexKey url sid) with
      | some cached => if isIndexExpired cached now then none else some cached
      | none => none) = (none : Option TimestampedAPIIndex) := by
    rcases hI : st.indexCache.lookup (generateIndexKey url sid) with _ | c
    · rfl
    · simp [hmiss c hI]
  rw [hcl, loadMetadata, h1, h2]
  rfl

theorem createIncrementalIndex_invalidDocument_witness :
    createIncrementalIndex (fun _ => "") {} "https://e/s.json" "sess" 7
        (.ok badResp) =
      (.error .invalidDocument, {}) :=
  createIncrementalIndex_invalidDocument (fun _ => "") {} "https://e/s.json"
    "sess" 7 badResp (fun c h => nomatch h) (by decide) (by decide)

/-- **C4** (counterexample): `has` promotes a key in the LRU order without
refreshing its `lastAccessed`, so after `set a; set b; has a`, the fresh
insert `set c` at capacity evicts `"b"` (`lastAccessed = 2`) although
`"a"` holds the oldest `lastAccessed` (`1`) — refuting the claimed
oldest-`lastAccessed` eviction; and a plain `delete` on a cache far under
capacity raises `stats.evictions` by one, refuting "the counter counts
evictions and nothing else". -/
theorem cache_eviction_counterexample :
    (mocHas cB "a" 3).1 = true ∧
      (cH.entries.lookup "a").map (fun e => e.lastAccessed) = some 1 ∧
      (cH.entries.lookup "b").map (fun e => e.lastAccessed) = some 2 ∧
      cC.entries.map Prod.fst = ["c", "a"] ∧
      cC.stats.evictions = cH.stats.evictions + 1 ∧
      (mocDelete cA "a").2.stats.evictions = cA.stats.evictions + 1 ∧
      cA.entries.length = 1 ∧ c0.maxSize = 2 := by
  decide

/-- **C4** (amended): a fresh insert at capacity evicts the
least-recently-used entry — the back of the recency order, which `get`,
`set` and `has` all refresh, `has` without updating the entry's
`lastAccessed` field — and bumps `stats.evictions` by exactly one; the same
counter is also incremented by every other entry disposal, e.g. once per
explicit `delete` of a present key. -/
theorem cache_eviction_amended {α : Type} (c : MOCache α) (k : String)
    (d : α) (ttl : Option Nat) (now : Nat)
    (hfresh : c.entries.lookup k = none)
    (hfull : c.entries.length ≥ c.maxSize) :
    (mocSet c k d ttl now false).entries =
        (k, { data := d, timestamp := now, ttl := jsOrNat ttl c.defaultTTL,
              accessCount := 1, lastAccessed := now }) :: c.entries.dropLast ∧
      (mocSet c k d ttl now false).stats.evictions = c.stats.evictions + 1 ∧
      (∀ k' : String, (c.entries.lookup k').isSome = true →
        (mocDelete c k').2.stats.evictions = c.stats.evictions + 1) := by
  refine ⟨?_, ?_, fun k' hk' => ?_⟩
  · simp only [mocSet, lruSet, hfresh, Bool.false_eq_true, if_false,
      if_pos hfull]
  · simp only [mocSet, lruSet, hfresh, Bool.false_eq_true, if_false,
      if_pos hfull]
  · simp only [mocDelete, lruDelete, if_pos hk']

theorem cache_eviction_amended_witness :
    (mocSet cH "c" 30 none 4 false).entries =
        ("c", { data := 30, timestamp := 4, ttl := jsOrNat none cH.defaultTTL,
                accessCount := 1, lastAccessed := 4 }) :: cH.entries.dropLast ∧
      (mocSet cH "c" 30 none 4 false).stats.evictions =
        cH.stats.evictions + 1 ∧
      (∀ k' : String, (cH.entries.lookup k').isSome = true →
        (mocDelete cH k').2.stats.evictions = cH.stats.evictions + 1) :=
  cache_eviction_amended cH "c" 30 none 4 (by decide) (by decide)

/-- **C5**: a second `createOrUpdateSession` with the same id keeps the
`createdAt` produced by the first call and rebuilds every other field from
the new configuration, with `lastAccessed` set to the call time; and after
any `createOrUpdateSession`, a later `getSession` reports a `lastAccessed`
at or above the call time. -/
theorem createOrUpdateSession_spec (st : ManagerState) (id : String)
    (cfg1 cfg2 : SwaggerConfig) (t1 t2 : Nat) (h1 : 0 < t1) :
    (createOrUpdateSession (createOrUpdateSession st id cfg1 t1).2 id cfg2
          t2).2.sessions.lookup id =
        some { id := id
               swaggerUrls := cfg2.swaggerUrls
               customHeaders := cfg2.customHeaders.getD []
               cacheTTL := jsOrNat cfg2.cacheTTL st.defaultCacheTTL
               rateLimit := cfg2.rateLimit
               createdAt := (createOrUpdateSession st id cfg1 t1).1.createdAt
               lastAccessed := t2
               isActive := true } ∧
      (createOrUpdateSession st id cfg1 t1).1.lastAccessed = t1 ∧
      (∀ (q : ManagerState) (i : String) (cfg : SwaggerConfig) (t u : Nat),
        t ≤ u → ∃ s, (getSession (createOrUpdateSession q i cfg t).2 i u).1 =
          some s ∧ t ≤ s.lastAccessed) := by
  have hc1pos : 0 < (createOrUpdateSession st id cfg1 t1).1.createdAt := by
    rw [createOrUpdate_fst]
    rcases he : st.sessions.lookup id with _ | e
    · exact h1
    · simp only []
      split
      · exact h1
      · rename_i hz
        exact Nat.pos_of_ne_zero hz
  refine ⟨?_, ?_, ?_⟩
  · rw [createOrUpdate_lookup, createOrUpdate_fst, createOrUpdate_dTTL,
      createOrUpdate_lookup]
    simp only [if_neg (Nat.pos_iff_ne_zero.mp hc1pos)]
  · rw [createOrUpdate_fst]
  · intro q i cfg t u htu
    refine ⟨{ (createOrUpdateSession q i cfg t).1 with lastAccessed := u },
      ?_, htu⟩
    rw [getSession, createOrUpdate_lookup]

theorem createOrUpdateSession_spec_witness :
    (createOrUpdateSession (createOrUpdateSession { sessions := [] } "sid"
          exCfg 1).2 "sid" exCfg 2).2.sessions.lookup "sid" =
        some { id := "sid"
               swaggerUrls := exCfg.swaggerUrls
               customHeaders := exCfg.customHeaders.getD []
               cacheTTL := jsOrNat exCfg.cacheTTL
                 ({ sessions := [] } : ManagerState).defaultCacheTTL
               rateLimit := exCfg.rateLimit
               createdAt := (createOrUpdateSession { sessions := [] } "sid"
                 exCfg 1).1.createdAt
               lastAccessed := 2
               isActive := true } ∧
      (createOrUpdateSession { sessions := [] } "sid" exCfg 1).1.lastAccessed
          = 1 ∧
      (∀ (q : ManagerState) (i : String) (cfg : SwaggerConfig) (t u : Nat),
        t ≤ u → ∃ s, (getSession (createOrUpdateSession q i cfg t).2 i u).1 =
          some s ∧ t ≤ s.lastAccessed) :=
  createOrUpdateSession_spec { sessions := [] } "sid" exCfg exCfg 1 2
    (by decide)

/-- **C10**: the session id derived from a URL is `"session_"` plus the
first 16 hex characters of the URL's SHA-256 — a pure function of the URL,
so repeated calls agree — and `getOrCreateSession` on a URL whose session
already exists returns that very id with `created = false` while leaving
the set of stored session ids unchanged. -/
theorem getOrCreateSession_existing (st : ManagerState) (url : String)
    (ttl : Option Nat) (hdrs : Option (List (String × String))) (now : Nat)
    (hexists : (st.sessions.lookup (generateSessionIdFromUrl url)).isSome
      = true) :
    generateSessionIdFromUrl url = "session_" ++ (sha256Hex url).take 16 ∧
      (getOrCreateSession st url ttl hdrs now).1 =
        (generateSessionIdFromUrl url, false) ∧
      (getOrCreateSession st url ttl hdrs now).2.sessions.map Prod.fst =
        st.sessions.map Prod.fst := by
  rcases hs : st.sessions.lookup (generateSessionIdFromUrl url) with _ | s
  · rw [hs] at hexists
    cases hexists
  · refine ⟨rfl, ?_, ?_⟩
    · rw [getOrCreateSession, getSession, hs]
    · rw [getOrCreateSession, getSession, hs]
      exact mapSet_keys_of_isSome _ (by rw [hs]; rfl)

theorem getOrCreateSession_existing_witness :
    generateSessionIdFromUrl "https://a" =
        "session_" ++ (sha256Hex "https://a").take 16 ∧
      (getOrCreateSession exMgr "https://a" none none 7).1 =
        (generateSessionIdFromUrl "https://a", false) ∧
      (getOrCreateSession exMgr "https://a" none none 7).2.sessions.map
          Prod.fst = exMgr.sessions.map Prod.fst :=
  getOrCreateSession_existing exMgr "https://a" none none 7
    (by simp [exMgr, exSession, List.lookup])

end SwaggerMCP
